import Mathlib

/-!
Verification development for the SimProp-Sirente propagation engine.

The numeric code is embedded shallowly over exact rationals (`ℚ`): C++
`double` arithmetic is modelled as exact field arithmetic, so
floating-point rounding is out of scope.  Collaborators that the engine
consumes through narrow interfaces (cosmology `dtdz`, the interaction-rate
model, the photon fields behind the continuous-loss processes, the random
number generator, and the C math library `std::log`) are carried as fields
of an environment structure `Env`; theorems that need facts about the real
logarithm (`log 1 = 0`, `log x < 0` on `(0,1)`) take them as explicit
hypotheses.
-/

namespace SimPropSirente

/-- State of one propagating particle in `examples/evolveProtons.cpp`:
species identifier `pid`, current redshift `z` (`getRedshift()`), current
Lorentz factor `gamma` (`getGamma()`). -/
structure Particle where
  pid : ℤ
  z : ℚ
  gamma : ℚ
deriving DecidableEq

/-- Environment of external collaborators consumed by the `Evolutor` of
`examples/evolveProtons.cpp`:
* `isNucleus` models `Particle::IsNucleus()` (a property of the pid);
* `dtdz` models `cosmo::Cosmology::dtdz` (time-per-redshift Jacobian);
* `lossProcesses` models the configured `m_continuousLosses` list, each
  entry being a `ContinuousLosses::dlnGamma_dt(pid, Gamma, z)` function;
* `rate` models `interactions::PhotoPionProduction::rate(pid, Gamma, z)`;
* `finalState` models `PhotoPionProduction::finalState(particle, newZ, rng)`:
  it receives the particle, the new redshift and the current position in the
  random stream, and returns the product list together with the advanced
  stream position;
* `log` models the C math library `std::log`;
* `rng` models the engine-owned random number stream `m_rng` as the
  sequence of uniform draws it produces. -/
structure Env where
  isNucleus : ℤ → Bool
  dtdz : ℚ → ℚ
  lossProcesses : List (ℤ → ℚ → ℚ → ℚ)
  rate : ℤ → ℚ → ℚ → ℚ
  finalState : Particle → ℚ → ℕ → List Particle × ℕ
  log : ℚ → ℚ
  rng : ℕ → ℚ

/-- The constant `minPropagatingGamma = 1e7` of the `IsActive` lambda. -/
def minPropagatingGamma : ℚ := 10 ^ 7

/-- The member constant `deltaGammaCritical = 0.1` of `Evolutor`. -/
def deltaGammaCritical : ℚ := 1 / 10

/-- The redshift activity floor `1e-20` of the `IsActive` lambda. -/
def redshiftFloor : ℚ := 1 / 10 ^ 20

/-- The `IsActive` lambda of `examples/evolveProtons.cpp`:
`p.IsNucleus() && p.getRedshift() > 1e-20 && p.getGamma() > minPropagatingGamma`. -/
def IsActive (E : Env) (p : Particle) : Bool :=
  E.isNucleus p.pid && decide (redshiftFloor < p.z) && decide (minPropagatingGamma < p.gamma)

/-- Model of `std::find_if` over a population held as a list: returns the
index of the first element satisfying the predicate together with that
element, or `none` when the search reaches the past-the-end position. -/
def findIf {α : Type} (f : α → Bool) : List α → Option (ℕ × α)
  | [] => none
  | x :: xs => if f x then some (0, x) else Option.map (fun q => (q.1 + 1, q.2)) (findIf f xs)

/-- Writing through the iterator returned by `std::find_if`: replace the
element at index `i` by `a`, leaving every other element unchanged. -/
def setAt {α : Type} : List α → ℕ → α → List α
  | [], _, _ => []
  | _ :: xs, 0, a => a :: xs
  | x :: xs, n + 1, a => x :: setAt xs n a

/-- `Evolutor::computeStochasticRedshiftInterval(particle, r)` of
`examples/evolveProtons.cpp`: the mean free path in redshift units
`lambda_s = fabs(1 / rate(pid, Gamma, zNow) / dtdz(zNow))` and the sampled
interval `-lambda_s * log(1 - r)`. -/
def computeStochasticRedshiftInterval (E : Env) (particle : Particle) (r : ℚ) : ℚ :=
  let pid := particle.pid
  let zNow := particle.z
  let Gamma := particle.gamma
  let dtdz := E.dtdz zNow
  let lambda_s := |1 / E.rate pid Gamma zNow / dtdz|
  let dz_s := -lambda_s * E.log (1 - r)
  dz_s

/-- `Evolutor::computeDeltaGamma(particle, dz)` of
`examples/evolveProtons.cpp`: accumulate the summed loss rates at `zNow`,
`zNow - 0.5 * dz` and `zNow - dz` over the configured continuous-loss
processes, then return `dz / 6 * dtdz * (now + 4 * half + next)`. -/
def computeDeltaGamma (E : Env) (particle : Particle) (dz : ℚ) : ℚ :=
  let pid := particle.pid
  let zNow := particle.z
  let Gamma := particle.gamma
  let dtdz := E.dtdz zNow
  let acc := E.lossProcesses.foldl
    (fun (acc : ℚ × ℚ × ℚ) losses =>
      (acc.1 + losses pid Gamma zNow,
       acc.2.1 + losses pid Gamma (zNow - 1 / 2 * dz),
       acc.2.2 + losses pid Gamma (zNow - dz)))
    (0, 0, 0)
  dz / 6 * dtdz * (acc.1 + 4 * acc.2.1 + acc.2.2)

/-- Modelled from the spec: `utils::rootFinder<double>(f, a, b, maxIter, tol)`
(declared in `simprop/utils/numeric.h`, whose source is not in the
repository snapshot).  Per the spec it is bisection-style root finding with
a fixed iteration budget and an absolute tolerance, returning its best
bracket midpoint when the budget is exhausted or the bracket width falls
below the tolerance. -/
def rootFinder (f : ℚ → ℚ) : ℚ → ℚ → ℕ → ℚ → ℚ
  | a, b, 0, _ => (a + b) / 2
  | a, b, n + 1, tol =>
    if b - a < tol then (a + b) / 2
    else if 0 < f ((a + b) / 2) then rootFinder f a ((a + b) / 2) n tol
    else rootFinder f ((a + b) / 2) b n tol

/-- `Evolutor::computeLossesRedshiftInterval(particle)` of
`examples/evolveProtons.cpp`: default `dz = zNow`; if
`computeDeltaGamma(particle, zNow) > deltaGammaCritical`, replace it by the
root of `computeDeltaGamma(particle, x) - deltaGammaCritical` on
`[0, zNow]` found with budget `100` and tolerance `1e-5`. -/
def computeLossesRedshiftInterval (E : Env) (particle : Particle) : ℚ :=
  if deltaGammaCritical < computeDeltaGamma E particle particle.z then
    rootFinder (fun x => computeDeltaGamma E particle x - deltaGammaCritical) 0 particle.z 100
      (1 / 100000)
  else particle.z

/-- Spec-side formula: the summed loss rate `R(z) = Σ dlnGamma_dt(pid, Γ, z)`
over the configured continuous-loss processes. -/
def totalLossRate (E : Env) (pid : ℤ) (Gamma z : ℚ) : ℚ :=
  (E.lossProcesses.map (fun losses => losses pid Gamma z)).sum

/-- Spec-side formula: the mean free path in redshift units,
`λ = |1 / rate(pid, Γ, z_now) / dtdz(z_now)|`. -/
def meanFreePath (E : Env) (particle : Particle) : ℚ :=
  |1 / E.rate particle.pid particle.gamma particle.z / E.dtdz particle.z|

/-- State of one iteration of `Evolutor::run`: the particle stack and the
current position in the random stream. -/
structure EvoState where
  stack : List Particle
  rngIdx : ℕ
deriving DecidableEq

/-- One iteration of the `while (nActive > 0)` loop of `Evolutor::run` of
`examples/evolveProtons.cpp`.  `none` means the loop guard fails (no active
particle).  Otherwise: select the first active particle, draw `r`, compute
`dz_s` and `dz_c`; if `dz_s > dz_c || dz_s > nowRedshift`, overwrite the
particle in place with `{nowRedshift - dz_c, Gamma * (1 - deltaGamma)}`;
otherwise erase it and insert the final-state products at the front. -/
def runStep (E : Env) (s : EvoState) : Option EvoState :=
  match findIf (IsActive E) s.stack with
  | none => none
  | some (i, p) =>
    let nowRedshift := p.z
    let r := E.rng s.rngIdx
    let dz_s := computeStochasticRedshiftInterval E p r
    let dz_c := computeLossesRedshiftInterval E p
    if dz_c < dz_s ∨ nowRedshift < dz_s then
      some ⟨setAt s.stack i
              ⟨p.pid, nowRedshift - dz_c, p.gamma * (1 - computeDeltaGamma E p dz_c)⟩,
            s.rngIdx + 1⟩
    else
      let fs := E.finalState p (nowRedshift - dz_s) (s.rngIdx + 1)
      some ⟨fs.1 ++ s.stack.eraseIdx i, fs.2⟩

/-- `Evolutor::run` as iteration of `runStep`, with explicit fuel. -/
def run (E : Env) : ℕ → EvoState → EvoState
  | 0, s => s
  | n + 1, s =>
    match runStep E s with
    | none => s
    | some s' => run E n s'

namespace losses

/-- `PairProductionLosses::dlnGamma_dt(pid, Gamma, z)` of
`src/energyLosses/PairProductionLosses.cpp` (lines 69-75):
`b_l = pow3(1 + z) * dotGamma(Gamma * (1 + z))`, then `b_l *= pow2(Z) / A`
where both `Z` and `A` are read from `getPidNucleusCharge(pid)`, and the
result is `std::max(b_l, 0.)`.  The photon-field integral
`PairProductionLosses::dotGamma` and the pid accessor
`getPidNucleusCharge` are carried as function parameters. -/
def dlnGamma_dt (dotGamma : ℚ → ℚ) (getPidNucleusCharge : ℤ → ℤ) (pid : ℤ)
    (Gamma z : ℚ) : ℚ :=
  let b_l := (1 + z) ^ 3 * dotGamma (Gamma * (1 + z))
  let Z : ℚ := (getPidNucleusCharge pid : ℚ)
  let A : ℚ := (getPidNucleusCharge pid : ℚ)
  let b_l2 := b_l * (Z ^ 2 / A)
  max b_l2 0

end losses

namespace core

/-- Particle state of `src/simprop.cpp`: species identifier `pid`, redshift
`z` (`getZ()` / `getNow().z`) and energy `E` (`getE()` / `getNow().E`). -/
structure Particle where
  pid : ℤ
  z : ℚ
  E : ℚ
deriving DecidableEq

/-- `DoPropagate` of `src/simprop.cpp` (lines 87-90):
`p.getZ() > 1e-20 && p.getE() > minPropagatingEnergy`.  The constant
`minPropagatingEnergy = SI::eV` is a unit constant whose numeric value is
not in the snapshot, so it is carried as a parameter. -/
def DoPropagate (minPropagatingEnergy : ℚ) (p : Particle) : Bool :=
  decide (1 / 10 ^ 20 < p.z) && decide (minPropagatingEnergy < p.E)

/-- `Evolve` of `src/simprop.cpp` (lines 92-99): `dz = 0.01`, the redshift
becomes `max(z - dz, 0)` and the energy is scaled by
`cosmo::adiabaticRelativeLoss(currentRedshift, newRedshift)` (an external
cosmology collaborator, carried as a parameter). -/
def Evolve (adiabaticRelativeLoss : ℚ → ℚ → ℚ) (p : Particle) : Particle :=
  let dz : ℚ := 1 / 100
  let newRedshift := max (p.z - dz) 0
  { p with z := newRedshift, E := p.E * adiabaticRelativeLoss p.z newRedshift }

/-- The loop of `SimProp::run` of `src/simprop.cpp` (lines 101-112), with
explicit fuel.  Each iteration recomputes `it = std::find_if(begin, end,
DoPropagate)` and then applies `Evolve(it)` before the loop condition is
re-tested; when `find_if` returns the past-the-end iterator, `Evolve`
dereferences it — in this total embedding that out-of-range access yields
no value (`none`).  `some l` means the fuel ran out with the loop still
going. -/
def run (minE : ℚ) (adiab : ℚ → ℚ → ℚ) : ℕ → List Particle → Option (List Particle)
  | 0, l => some l
  | n + 1, l =>
    match findIf (DoPropagate minE) l with
    | none => none
    | some (i, p) => run minE adiab n (setAt l i (Evolve adiab p))

/-- Number of `Evolve` applications a redshift `z` can absorb before
falling to `0`: the ceiling of `z / 0.01`. -/
def stepsLeft (z : ℚ) : ℕ := (Int.ceil (100 * z)).toNat

/-- Termination measure for `SimProp::run`: total remaining `Evolve`
applications over the whole population. -/
def runMeasure (l : List Particle) : ℕ := (l.map (fun p => stepsLeft p.z)).sum

end core

/-- Concrete environment used by witnesses: two all-zero continuous-loss
processes, unit interaction rate and Jacobian, `finalState` producing no
products, and `log` replaced by its tangent line at `1` (`fun x => x - 1`),
which agrees with the real logarithm at `1` (`log 1 = 0`) and is negative
on `(0, 1)` — the only properties of `std::log` the theorems below use. -/
def zeroLossEnv : Env where
  isNucleus := fun _ => true
  dtdz := fun _ => 1
  lossProcesses := [fun _ _ _ => 0, fun _ _ _ => 0]
  rate := fun _ _ _ => 1
  finalState := fun _ _ n => ([], n)
  log := fun x => x - 1
  rng := fun _ => 1 / 2

/-- A concrete active proton: pid 1, redshift 1, Lorentz factor `1e8`. -/
def protonP : Particle := ⟨1, 1, 10 ^ 8⟩

/-- Concrete environment for a continuous-branch step in which the root
finder engages: a single constant continuous-loss process of rate `2/5`
(so `computeDeltaGamma(p, x) = 2 * x / 5`), unit Jacobian, interaction
rate `1/2` (so the sampled stochastic step at draw `1/2` is `1`), and the
same tangent-line `log` surrogate as `zeroLossEnv`. -/
def cexEnv : Env where
  isNucleus := fun _ => true
  dtdz := fun _ => 1
  lossProcesses := [fun _ _ _ => 2 / 5]
  rate := fun _ _ _ => 1 / 2
  finalState := fun _ _ n => ([], n)
  log := fun x => x - 1
  rng := fun _ => 1 / 2

/-! Helper lemmas. -/

/-- Unfolding the three-sum accumulator loop of `computeDeltaGamma`. -/
theorem foldl_lossTriple (pid : ℤ) (G z1 z2 z3 : ℚ) (L : List (ℤ → ℚ → ℚ → ℚ)) :
    ∀ a b c : ℚ,
      L.foldl
        (fun (acc : ℚ × ℚ × ℚ) losses =>
          (acc.1 + losses pid G z1, acc.2.1 + losses pid G z2, acc.2.2 + losses pid G z3))
        (a, b, c)
      = (a + (L.map (fun l => l pid G z1)).sum,
         b + (L.map (fun l => l pid G z2)).sum,
         c + (L.map (fun l => l pid G z3)).sum) := by
  induction L with
  | nil => intro a b c; simp
  | cons f L ih =>
    intro a b c
    simp only [List.foldl_cons, List.map_cons, List.sum_cons, ih, Prod.mk.injEq]
    refine ⟨by ring, by ring, by ring⟩

/-- `computeDeltaGamma` equals the 4-point Simpson form over the summed
loss rate. -/
theorem computeDeltaGamma_eq (E : Env) (p : Particle) (dz : ℚ) :
    computeDeltaGamma E p dz
      = dz / 6 * E.dtdz p.z *
          (totalLossRate E p.pid p.gamma p.z
            + 4 * totalLossRate E p.pid p.gamma (p.z - dz / 2)
            + totalLossRate E p.pid p.gamma (p.z - dz)) := by
  have h12 : p.z - 1 / 2 * dz = p.z - dz / 2 := by ring
  simp only [computeDeltaGamma, totalLossRate, foldl_lossTriple, h12]
  ring

/-- The bisection result always lies strictly inside the initial bracket. -/
theorem rootFinder_mem (f : ℚ → ℚ) :
    ∀ (n : ℕ) (tol a b : ℚ), a < b →
      a < rootFinder f a b n tol ∧ rootFinder f a b n tol < b := by
  intro n
  induction n with
  | zero =>
    intro tol a b hab
    unfold rootFinder
    constructor <;> linarith
  | succ n ih =>
    intro tol a b hab
    unfold rootFinder
    split
    · constructor <;> linarith
    · split
      · have h := ih tol a ((a + b) / 2) (by linarith)
        exact ⟨h.1, by linarith [h.2]⟩
      · have h := ih tol ((a + b) / 2) b (by linarith)
        exact ⟨by linarith [h.1], h.2⟩

/-- The cheap branch of `computeLossesRedshiftInterval`. -/
theorem lossesInterval_eq_of_le (E : Env) (p : Particle)
    (h : computeDeltaGamma E p p.z ≤ deltaGammaCritical) :
    computeLossesRedshiftInterval E p = p.z := by
  unfold computeLossesRedshiftInterval
  rw [if_neg (not_lt.mpr h)]

/-- The root-finding branch of `computeLossesRedshiftInterval`. -/
theorem lossesInterval_eq_of_gt (E : Env) (p : Particle)
    (h : deltaGammaCritical < computeDeltaGamma E p p.z) :
    computeLossesRedshiftInterval E p
      = rootFinder (fun x => computeDeltaGamma E p x - deltaGammaCritical) 0 p.z 100
          (1 / 100000) := by
  unfold computeLossesRedshiftInterval
  rw [if_pos h]

/-- The returned continuous step always lies in `(0, z_now]`. -/
theorem lossesInterval_bounds (E : Env) (p : Particle) (hz : 0 < p.z) :
    0 < computeLossesRedshiftInterval E p ∧ computeLossesRedshiftInterval E p ≤ p.z := by
  unfold computeLossesRedshiftInterval
  split
  · have h := rootFinder_mem (fun x => computeDeltaGamma E p x - deltaGammaCritical) 100
      (1 / 100000) 0 p.z hz
    exact ⟨h.1, le_of_lt h.2⟩
  · exact ⟨hz, le_refl _⟩

/-! Claim theorems. -/

/-- C2: for every particle with redshift `z` and every candidate step `dz`,
`computeDeltaGamma(particle, dz)` equals
`dz/6 * dtdz(z) * (R(z) + 4*R(z - dz/2) + R(z - dz))` where `R` is the sum
of `dlnGamma_dt` over the configured continuous-loss processes. -/
theorem C2_computeDeltaGamma_simpson (E : Env) (p : Particle) (dz : ℚ) :
    computeDeltaGamma E p dz
      = dz / 6 * E.dtdz p.z *
          (totalLossRate E p.pid p.gamma p.z
            + 4 * totalLossRate E p.pid p.gamma (p.z - dz / 2)
            + totalLossRate E p.pid p.gamma (p.z - dz)) :=
  computeDeltaGamma_eq E p dz

/-- C3: for every particle with `z_now > 0`, `computeLossesRedshiftInterval`
returns `z_now` when `computeDeltaGamma(particle, z_now)` does not exceed
the critical threshold `0.1`, and otherwise the bisection result for
`computeDeltaGamma(particle, x) - 0.1` on `[0, z_now]` with budget `100`
and tolerance `1e-5`; in all cases the result lies in `(0, z_now]`. -/
theorem C3_lossesRedshiftInterval (E : Env) (p : Particle) (hz : 0 < p.z) :
    (computeDeltaGamma E p p.z ≤ deltaGammaCritical →
      computeLossesRedshiftInterval E p = p.z)
    ∧ (deltaGammaCritical < computeDeltaGamma E p p.z →
        computeLossesRedshiftInterval E p
          = rootFinder (fun x => computeDeltaGamma E p x - deltaGammaCritical) 0 p.z 100
              (1 / 100000))
    ∧ 0 < computeLossesRedshiftInterval E p
    ∧ computeLossesRedshiftInterval E p ≤ p.z :=
  ⟨lossesInterval_eq_of_le E p, lossesInterval_eq_of_gt E p,
    (lossesInterval_bounds E p hz).1, (lossesInterval_bounds E p hz).2⟩

/-- Witness for C3 at the concrete environment `zeroLossEnv` and particle
`protonP`. -/
theorem C3_lossesRedshiftInterval_witness :
    (0 : ℚ) < protonP.z
    ∧ ((computeDeltaGamma zeroLossEnv protonP protonP.z ≤ deltaGammaCritical →
          computeLossesRedshiftInterval zeroLossEnv protonP = protonP.z)
       ∧ (deltaGammaCritical < computeDeltaGamma zeroLossEnv protonP protonP.z →
            computeLossesRedshiftInterval zeroLossEnv protonP
              = rootFinder
                  (fun x => computeDeltaGamma zeroLossEnv protonP x - deltaGammaCritical) 0
                  protonP.z 100 (1 / 100000))
       ∧ 0 < computeLossesRedshiftInterval zeroLossEnv protonP
       ∧ computeLossesRedshiftInterval zeroLossEnv protonP ≤ protonP.z) :=
  ⟨by norm_num [protonP],
    C3_lossesRedshiftInterval zeroLossEnv protonP (by norm_num [protonP])⟩

/-- C4: for every particle and draw `r ∈ [0,1)`,
`computeStochasticRedshiftInterval` returns `-λ * log(1 - r)` with
`λ = |1 / rate(pid, Γ, z_now) / dtdz(z_now)|` (the absolute value applied
to the mean free path before sampling); no cap at `z_now` appears. -/
theorem C4_stochasticInterval (E : Env) (p : Particle) (r : ℚ)
    (h0 : 0 ≤ r) (h1 : r < 1) :
    computeStochasticRedshiftInterval E p r = -meanFreePath E p * E.log (1 - r) := rfl

/-- Witness for C4 at `zeroLossEnv`, `protonP`, `r = 1/2`. -/
theorem C4_stochasticInterval_witness :
    (0 : ℚ) ≤ 1 / 2 ∧ (1 / 2 : ℚ) < 1
    ∧ computeStochasticRedshiftInterval zeroLossEnv protonP (1 / 2)
        = -meanFreePath zeroLossEnv protonP * zeroLossEnv.log (1 - 1 / 2) :=
  ⟨by norm_num, by norm_num,
    C4_stochasticInterval zeroLossEnv protonP (1 / 2) (by norm_num) (by norm_num)⟩

/-- A successful `findIf` returns an index holding the element it reports,
and that element satisfies the predicate. -/
theorem findIf_some {α : Type} (f : α → Bool) :
    ∀ (l : List α) (i : ℕ) (p : α), findIf f l = some (i, p) →
      l.get? i = some p ∧ f p = true := by
  intro l
  induction l with
  | nil => intro i p h; simp [findIf] at h
  | cons x xs ih =>
    intro i p h
    by_cases hx : f x
    · rw [findIf, if_pos hx] at h
      obtain ⟨hi, hp⟩ := Prod.mk.injEq .. ▸ Option.some_inj.mp h
      subst hi
      subst hp
      exact ⟨rfl, hx⟩
    · rw [findIf, if_neg hx] at h
      cases hfx : findIf f xs with
      | none => rw [hfx] at h; simp at h
      | some q =>
        rw [hfx] at h
        simp only [Option.map_some', Option.some_inj] at h
        obtain ⟨hi, hp⟩ := Prod.mk.injEq .. ▸ h
        have hq := ih q.1 q.2 (by rw [hfx])
        subst hp
        refine ⟨?_, hq.2⟩
        rw [← hi]
        simpa using hq.1

/-- `findIf` reaches the past-the-end position when no element satisfies
the predicate. -/
theorem findIf_none {α : Type} (f : α → Bool) :
    ∀ l : List α, (∀ x ∈ l, f x = false) → findIf f l = none := by
  intro l
  induction l with
  | nil => intro _; rfl
  | cons x xs ih =>
    intro h
    have hx : f x = false := h x (List.mem_cons_self x xs)
    rw [findIf, if_neg (by simp [hx]), ih (fun y hy => h y (List.mem_cons_of_mem x hy))]
    rfl

/-- Removing the element reported at index `i` is a permutation-correct
decomposition of the list. -/
theorem perm_cons_eraseIdx {α : Type} :
    ∀ (l : List α) (i : ℕ) (p : α), l.get? i = some p →
      l.Perm (p :: l.eraseIdx i) := by
  intro l
  induction l with
  | nil => intro i p h; simp at h
  | cons x xs ih =>
    intro i p h
    cases i with
    | zero =>
      simp only [List.get?] at h
      obtain rfl := Option.some_inj.mp h
      simp [List.eraseIdx]
    | succ n =>
      simp only [List.get?] at h
      have hperm := ih n p h
      simp only [List.eraseIdx]
      exact (hperm.cons x).trans (List.Perm.swap p x (xs.eraseIdx n))

/-- The continuous-loss branch of one `Evolutor::run` iteration. -/
theorem runStep_continuous (E : Env) (s : EvoState) (i : ℕ) (p : Particle)
    (hfind : findIf (IsActive E) s.stack = some (i, p))
    (hcond : computeLossesRedshiftInterval E p
        < computeStochasticRedshiftInterval E p (E.rng s.rngIdx)
      ∨ p.z < computeStochasticRedshiftInterval E p (E.rng s.rngIdx)) :
    runStep E s = some ⟨setAt s.stack i
        ⟨p.pid, p.z - computeLossesRedshiftInterval E p,
          p.gamma * (1 - computeDeltaGamma E p (computeLossesRedshiftInterval E p))⟩,
      s.rngIdx + 1⟩ := by
  unfold runStep
  rw [hfind]
  exact if_pos hcond

/-- The stochastic-interaction branch of one `Evolutor::run` iteration. -/
theorem runStep_stochastic (E : Env) (s : EvoState) (i : ℕ) (p : Particle)
    (hfind : findIf (IsActive E) s.stack = some (i, p))
    (hcond : ¬(computeLossesRedshiftInterval E p
        < computeStochasticRedshiftInterval E p (E.rng s.rngIdx)
      ∨ p.z < computeStochasticRedshiftInterval E p (E.rng s.rngIdx))) :
    runStep E s = some
      ⟨(E.finalState p (p.z - computeStochasticRedshiftInterval E p (E.rng s.rngIdx))
          (s.rngIdx + 1)).1 ++ s.stack.eraseIdx i,
        (E.finalState p (p.z - computeStochasticRedshiftInterval E p (E.rng s.rngIdx))
          (s.rngIdx + 1)).2⟩ := by
  unfold runStep
  rw [hfind]
  exact if_neg hcond

/-- In `zeroLossEnv` the summed loss rate is identically zero. -/
theorem zeroLossEnv_totalLossRate (pid : ℤ) (G z : ℚ) :
    totalLossRate zeroLossEnv pid G z = 0 := by
  simp [totalLossRate, zeroLossEnv]

/-- In `zeroLossEnv` the quadrature yields zero for every step. -/
theorem zeroLossEnv_deltaGamma (p : Particle) (dz : ℚ) :
    computeDeltaGamma zeroLossEnv p dz = 0 := by
  rw [computeDeltaGamma_eq]
  simp [zeroLossEnv_totalLossRate]

/-- In `zeroLossEnv` the continuous step is the whole remaining range. -/
theorem zeroLossEnv_lossesInterval (p : Particle) :
    computeLossesRedshiftInterval zeroLossEnv p = p.z := by
  apply lossesInterval_eq_of_le
  rw [zeroLossEnv_deltaGamma]
  norm_num [deltaGammaCritical]

/-- In `zeroLossEnv` the sampled stochastic step equals the draw. -/
theorem zeroLossEnv_stochInterval (p : Particle) (r : ℚ) :
    computeStochasticRedshiftInterval zeroLossEnv p r = r := by
  simp [computeStochasticRedshiftInterval, zeroLossEnv]

/-- In `zeroLossEnv` the one-proton stack selects the proton. -/
theorem zeroLossEnv_findIf :
    findIf (IsActive zeroLossEnv) [protonP] = some (0, protonP) := by
  norm_num [findIf, IsActive, zeroLossEnv, protonP, redshiftFloor, minPropagatingGamma]

/-- C1: in each iteration of `Evolutor::run`, for the selected active
particle: if `dz_s > dz_c` or `dz_s > z_now` the continuous-loss branch
replaces the particle's state in place by
`(z_now - dz_c, Γ * (1 - computeDeltaGamma(particle, dz_c)))`; otherwise
the stochastic branch passes `z_now - dz_s` to the final-state generator,
removes the original particle and inserts the products. -/
theorem C1_runStep_branches (E : Env) (s : EvoState) (i : ℕ) (p : Particle)
    (hfind : findIf (IsActive E) s.stack = some (i, p)) :
    ((computeLossesRedshiftInterval E p
          < computeStochasticRedshiftInterval E p (E.rng s.rngIdx)
        ∨ p.z < computeStochasticRedshiftInterval E p (E.rng s.rngIdx)) →
      runStep E s = some ⟨setAt s.stack i
          ⟨p.pid, p.z - computeLossesRedshiftInterval E p,
            p.gamma * (1 - computeDeltaGamma E p (computeLossesRedshiftInterval E p))⟩,
        s.rngIdx + 1⟩)
    ∧ (¬(computeLossesRedshiftInterval E p
          < computeStochasticRedshiftInterval E p (E.rng s.rngIdx)
        ∨ p.z < computeStochasticRedshiftInterval E p (E.rng s.rngIdx)) →
      runStep E s = some
        ⟨(E.finalState p (p.z - computeStochasticRedshiftInterval E p (E.rng s.rngIdx))
            (s.rngIdx + 1)).1 ++ s.stack.eraseIdx i,
          (E.finalState p (p.z - computeStochasticRedshiftInterval E p (E.rng s.rngIdx))
            (s.rngIdx + 1)).2⟩) :=
  ⟨runStep_continuous E s i p hfind, runStep_stochastic E s i p hfind⟩

/-- Witness for C1: at `zeroLossEnv` with stack `[protonP]`, the branch
condition fails (`dz_s = 1/2`, `dz_c = z_now = 1`) and the stochastic
branch yields the empty final state at random position 1. -/
theorem C1_runStep_branches_witness :
    runStep zeroLossEnv ⟨[protonP], 0⟩ = some ⟨[], 1⟩ := by
  have h := (C1_runStep_branches zeroLossEnv ⟨[protonP], 0⟩ 0 protonP zeroLossEnv_findIf).2
    (by rw [zeroLossEnv_lossesInterval, zeroLossEnv_stochInterval]
        norm_num [protonP, zeroLossEnv])
  rw [h]
  simp [zeroLossEnv]

/-- C9: after a stochastic-branch step, the new population is exactly the
final-state products inserted in front of the previous population with the
interacting particle removed; the permutation clause certifies that no
other particle is dropped or duplicated. -/
theorem C9_population_conservation (E : Env) (s : EvoState) (i : ℕ) (p : Particle)
    (hfind : findIf (IsActive E) s.stack = some (i, p))
    (hcond : ¬(computeLossesRedshiftInterval E p
        < computeStochasticRedshiftInterval E p (E.rng s.rngIdx)
      ∨ p.z < computeStochasticRedshiftInterval E p (E.rng s.rngIdx))) :
    runStep E s = some
      ⟨(E.finalState p (p.z - computeStochasticRedshiftInterval E p (E.rng s.rngIdx))
          (s.rngIdx + 1)).1 ++ s.stack.eraseIdx i,
        (E.finalState p (p.z - computeStochasticRedshiftInterval E p (E.rng s.rngIdx))
          (s.rngIdx + 1)).2⟩
    ∧ s.stack.Perm (p :: s.stack.eraseIdx i) :=
  ⟨runStep_stochastic E s i p hfind hcond,
    perm_cons_eraseIdx s.stack i p (findIf_some (IsActive E) s.stack i p hfind).1⟩

/-- Witness for C9 at `zeroLossEnv` with stack `[protonP]`. -/
theorem C9_population_conservation_witness :
    runStep zeroLossEnv ⟨[protonP], 0⟩ = some ⟨([] : List Particle) ++ [protonP].eraseIdx 0, 1⟩
    ∧ [protonP].Perm (protonP :: [protonP].eraseIdx 0) := by
  have h := C9_population_conservation zeroLossEnv ⟨[protonP], 0⟩ 0 protonP zeroLossEnv_findIf
    (by rw [zeroLossEnv_lossesInterval, zeroLossEnv_stochInterval]
        norm_num [protonP, zeroLossEnv])
  refine ⟨h.1.trans ?_, h.2⟩
  simp [zeroLossEnv]

/-- C5 counterexample: at the uniform draw `r = 0` (which lies in the
claimed range `[0, 1)`), the sampled interval is
`dz_s = -λ * log(1 - 0) = -λ * log 1 = 0`, so the asserted invariant
`dz_s > 0` fails for an active particle with positive redshift.  Only the
fact `log 1 = 0`, shared by the real logarithm and the surrogate of
`zeroLossEnv`, is used. -/
theorem C5_assert_counterexample :
    IsActive zeroLossEnv protonP = true
    ∧ (0 : ℚ) < protonP.z
    ∧ (0 : ℚ) ≤ 0 ∧ (0 : ℚ) < 1
    ∧ zeroLossEnv.log (1 - 0) = 0
    ∧ computeStochasticRedshiftInterval zeroLossEnv protonP 0 = 0
    ∧ ¬(0 < computeStochasticRedshiftInterval zeroLossEnv protonP 0) := by
  refine ⟨?_, by norm_num [protonP], by norm_num, by norm_num, by norm_num [zeroLossEnv],
    ?_, ?_⟩
  · norm_num [IsActive, zeroLossEnv, protonP, redshiftFloor, minPropagatingGamma]
  · exact zeroLossEnv_stochInterval protonP 0
  · rw [zeroLossEnv_stochInterval]
    norm_num

/-- C5 amended: for every draw `r` strictly inside `(0, 1)`, every active
particle with `z_now > 0`, a nonzero interaction rate and a nonzero
`dt/dz`, and a `log` with the real logarithm's sign on `(0,1)`, the values
of a step satisfy `dz_s > 0`, `dz_c > 0` and `dz_c ≤ z_now`. -/
theorem C5_step_invariants (E : Env) (p : Particle) (r : ℚ)
    (hr0 : 0 < r) (hr1 : r < 1)
    (hlog : ∀ x : ℚ, 0 < x → x < 1 → E.log x < 0)
    (hrate : E.rate p.pid p.gamma p.z ≠ 0)
    (hdtdz : E.dtdz p.z ≠ 0)
    (hz : 0 < p.z) :
    0 < computeStochasticRedshiftInterval E p r
    ∧ 0 < computeLossesRedshiftInterval E p
    ∧ computeLossesRedshiftInterval E p ≤ p.z := by
  refine ⟨?_, (lossesInterval_bounds E p hz).1, (lossesInterval_bounds E p hz).2⟩
  have hlam : 0 < |1 / E.rate p.pid p.gamma p.z / E.dtdz p.z| :=
    abs_pos.mpr (div_ne_zero (one_div_ne_zero hrate) hdtdz)
  have hlneg : E.log (1 - r) < 0 := hlog (1 - r) (by linarith) (by linarith)
  show 0 < -|1 / E.rate p.pid p.gamma p.z / E.dtdz p.z| * E.log (1 - r)
  exact mul_pos_of_neg_of_neg (neg_lt_zero.mpr hlam) hlneg

/-- Witness for the amended C5 at `zeroLossEnv`, `protonP`, `r = 1/2`. -/
theorem C5_step_invariants_witness :
    0 < computeStochasticRedshiftInterval zeroLossEnv protonP (1 / 2)
    ∧ 0 < computeLossesRedshiftInterval zeroLossEnv protonP
    ∧ computeLossesRedshiftInterval zeroLossEnv protonP ≤ protonP.z :=
  C5_step_invariants zeroLossEnv protonP (1 / 2) (by norm_num) (by norm_num)
    (by intro x h1 h2; show x - 1 < 0; linarith)
    (by norm_num [zeroLossEnv]) (by norm_num [zeroLossEnv]) (by norm_num [protonP])

/-- C7: if every configured continuous-loss process returns 0 everywhere,
`computeDeltaGamma` is identically zero and `computeLossesRedshiftInterval`
returns the whole remaining range `z_now` every time. -/
theorem C7_zero_loss_edge (E : Env) (p : Particle)
    (h : ∀ f ∈ E.lossProcesses, ∀ (pid : ℤ) (G z : ℚ), f pid G z = 0) :
    (∀ dz : ℚ, computeDeltaGamma E p dz = 0)
    ∧ computeLossesRedshiftInterval E p = p.z := by
  have hR : ∀ (pid : ℤ) (G z : ℚ), totalLossRate E pid G z = 0 := by
    intro pid G z
    unfold totalLossRate
    apply List.sum_eq_zero
    intro x hx
    simp only [List.mem_map] at hx
    obtain ⟨f, hf, rfl⟩ := hx
    exact h f hf pid G z
  have hd : ∀ dz : ℚ, computeDeltaGamma E p dz = 0 := by
    intro dz
    rw [computeDeltaGamma_eq, hR, hR, hR]
    ring
  refine ⟨hd, ?_⟩
  apply lossesInterval_eq_of_le
  rw [hd]
  norm_num [deltaGammaCritical]

/-- Witness for C7 at `zeroLossEnv` (two all-zero processes), `protonP`. -/
theorem C7_zero_loss_edge_witness :
    (∀ dz : ℚ, computeDeltaGamma zeroLossEnv protonP dz = 0)
    ∧ computeLossesRedshiftInterval zeroLossEnv protonP = protonP.z :=
  C7_zero_loss_edge zeroLossEnv protonP (by
    intro f hf pid G z
    simp only [zeroLossEnv, List.mem_cons, List.not_mem_nil, or_false] at hf
    rcases hf with rfl | rfl <;> rfl)

/-- C6: `PairProductionLosses::dlnGamma_dt` returns
`max(0, (1+z)^3 * dotGamma(Γ(1+z)) * Z²/A)` — hence a never-negative
result — and since both `Z` and `A` come from `getPidNucleusCharge(pid)`,
the nuclear scaling factor `Z²/A` equals the nuclear charge itself. -/
theorem C6_pair_production_rate (dotGamma : ℚ → ℚ) (getPidNucleusCharge : ℤ → ℤ)
    (pid : ℤ) (Gamma z : ℚ) (hZ : getPidNucleusCharge pid ≠ 0) :
    losses.dlnGamma_dt dotGamma getPidNucleusCharge pid Gamma z
      = max 0 ((1 + z) ^ 3 * dotGamma (Gamma * (1 + z))
          * ((getPidNucleusCharge pid : ℚ) ^ 2 / (getPidNucleusCharge pid : ℚ)))
    ∧ 0 ≤ losses.dlnGamma_dt dotGamma getPidNucleusCharge pid Gamma z
    ∧ (getPidNucleusCharge pid : ℚ) ^ 2 / (getPidNucleusCharge pid : ℚ)
        = (getPidNucleusCharge pid : ℚ) := by
  have hc : ((getPidNucleusCharge pid : ℤ) : ℚ) ≠ 0 := Int.cast_ne_zero.mpr hZ
  refine ⟨?_, ?_, ?_⟩
  · show max _ 0 = max 0 _
    exact max_comm _ _
  · show (0 : ℚ) ≤ max _ 0
    exact le_max_right _ _
  · rw [sq, mul_div_assoc, div_self hc, mul_one]

/-- Witness for C6 at the constant charge accessor `26` (iron), `pid = 1`,
`Γ = 1`, `z = 0`, unit `dotGamma`. -/
theorem C6_pair_production_rate_witness :
    losses.dlnGamma_dt (fun _ => 1) (fun _ => 26) 1 1 0 = 26
    ∧ (0 : ℚ) ≤ losses.dlnGamma_dt (fun _ => 1) (fun _ => 26) 1 1 0
    ∧ (26 : ℚ) ^ 2 / 26 = 26 := by
  have h := C6_pair_production_rate (fun _ => 1) (fun _ => 26) 1 1 0 (by norm_num)
  refine ⟨h.1.trans ?_, h.2.1, by norm_num⟩
  norm_num

/-- Tolerance-stop case of one bisection step. -/
theorem rootFinder_stop {f : ℚ → ℚ} {a b tol : ℚ} (n : ℕ) (h : b - a < tol) :
    rootFinder f a b (n + 1) tol = (a + b) / 2 := by
  rw [rootFinder, if_pos h]

/-- Upper-bracket case of one bisection step. -/
theorem rootFinder_hi {f : ℚ → ℚ} {a b tol : ℚ} (n : ℕ) (h : ¬(b - a < tol))
    (hf : 0 < f ((a + b) / 2)) :
    rootFinder f a b (n + 1) tol = rootFinder f a ((a + b) / 2) n tol := by
  rw [rootFinder, if_neg h, if_pos hf]

/-- Lower-bracket case of one bisection step. -/
theorem rootFinder_lo {f : ℚ → ℚ} {a b tol : ℚ} (n : ℕ) (h : ¬(b - a < tol))
    (hf : ¬ 0 < f ((a + b) / 2)) :
    rootFinder f a b (n + 1) tol = rootFinder f ((a + b) / 2) b n tol := by
  rw [rootFinder, if_neg h, if_neg hf]

/-- Bisection tail for the linear loss profile `2/5 * x - 1/10` on the
bracket `[1/4, 1/4 + 2^(-k)]`: the search keeps the lower endpoint `1/4`
(the exact root is `1/4`) and stops at width `2^(-17) < 1e-5`, returning
the midpoint `1/4 + 2^(-18)` — strictly above the root. -/
theorem bisection_tail_linear : ∀ (d k n : ℕ), k + d = 17 → d ≤ n →
    rootFinder (fun x => 2/5 * x - 1/10) (1/4) (1/4 + (1/2 : ℚ)^k) (n+1) (1/100000)
      = 1/4 + (1/2 : ℚ)^18 := by
  intro d
  induction d with
  | zero =>
    intro k n hk _
    obtain rfl : k = 17 := by omega
    rw [rootFinder_stop n (by norm_num)]
    norm_num
  | succ d ih =>
    intro k n hk hn
    obtain ⟨n', rfl⟩ : ∃ m, n = m + 1 := ⟨n - 1, by omega⟩
    have hk16 : k ≤ 16 := by omega
    have hwid : ¬((1/4 + (1/2 : ℚ)^k) - 1/4 < 1/100000) := by
      have h1 : ((1:ℚ)/2)^16 ≤ (1/2)^k :=
        pow_le_pow_of_le_one (by norm_num) (by norm_num) hk16
      norm_num at h1 ⊢
      linarith
    have hmid : ((1:ℚ)/4 + (1/4 + (1/2 : ℚ)^k)) / 2 = 1/4 + (1/2 : ℚ)^(k+1) := by ring
    have hfmid : 0 < (fun x => 2/5 * x - 1/10) (((1:ℚ)/4 + (1/4 + (1/2 : ℚ)^k)) / 2) := by
      rw [hmid]
      have hp : (0:ℚ) < (1/2 : ℚ)^(k+1) := by positivity
      simp only []
      nlinarith
    rw [rootFinder_hi (n' + 1) hwid hfmid, hmid]
    exact ih (k+1) n' (by omega) (by omega)

/-- Full bisection run for `2/5 * x - 1/10` on `[0, 1]` with budget 100 and
tolerance `1e-5`: the result overshoots the exact root `1/4` by `2^(-18)`. -/
theorem rootFinder_linear_eval :
    rootFinder (fun x => 2/5 * x - 1/10) 0 1 100 (1/100000) = 65537 / 262144 := by
  rw [show (100:ℕ) = 99 + 1 from rfl,
      rootFinder_hi 99 (by norm_num) (by norm_num),
      show (99:ℕ) = 98 + 1 from rfl,
      rootFinder_lo 98 (by norm_num) (by norm_num)]
  have e1 : ((0 + (0 + 1 : ℚ)/2)/2 : ℚ) = 1/4 := by norm_num
  have e2 : ((0 + 1 : ℚ)/2 : ℚ) = 1/4 + (1/2 : ℚ)^2 := by norm_num
  rw [e1, e2]
  exact (bisection_tail_linear 15 2 97 (by norm_num) (by norm_num)).trans (by norm_num)

/-- In `cexEnv` the summed loss rate is the constant `2/5`. -/
theorem cexEnv_totalLossRate (pid : ℤ) (G z : ℚ) :
    totalLossRate cexEnv pid G z = 2/5 := by
  simp [totalLossRate, cexEnv]

/-- In `cexEnv` the quadrature is the linear profile `2/5 * dz`. -/
theorem cexEnv_deltaGamma (p : Particle) (dz : ℚ) :
    computeDeltaGamma cexEnv p dz = 2/5 * dz := by
  rw [computeDeltaGamma_eq]
  rw [cexEnv_totalLossRate, cexEnv_totalLossRate, cexEnv_totalLossRate]
  show dz / 6 * 1 * (2/5 + 4 * (2/5) + 2/5) = 2/5 * dz
  ring

/-- In `cexEnv` the root finder engages and returns `1/4 + 2^(-18)`. -/
theorem cexEnv_lossesInterval :
    computeLossesRedshiftInterval cexEnv protonP = 65537 / 262144 := by
  rw [lossesInterval_eq_of_gt cexEnv protonP
    (by rw [cexEnv_deltaGamma]; norm_num [protonP, deltaGammaCritical])]
  have hf : (fun x => computeDeltaGamma cexEnv protonP x - deltaGammaCritical)
      = (fun x => 2/5 * x - 1/10) := by
    funext x
    rw [cexEnv_deltaGamma]
    norm_num [deltaGammaCritical]
  rw [hf, show protonP.z = 1 from rfl]
  exact rootFinder_linear_eval

/-- Nonnegative loss processes give a nonnegative summed rate. -/
theorem totalLossRate_nonneg (E : Env)
    (hproc : ∀ f ∈ E.lossProcesses, ∀ (pid : ℤ) (G z : ℚ), 0 ≤ f pid G z)
    (pid : ℤ) (G z : ℚ) : 0 ≤ totalLossRate E pid G z := by
  unfold totalLossRate
  apply List.sum_nonneg
  intro x hx
  simp only [List.mem_map] at hx
  obtain ⟨f, hf, rfl⟩ := hx
  exact hproc f hf pid G z

/-- C8 counterexample: in `cexEnv` the selected particle is active, the
continuous branch wins (`dz_c < dz_s`), yet
`Δγ = computeDeltaGamma(particle, dz_c) = 1/10 + 1/655360`, strictly above
`criticalThreshold = 0.1` — the root-finder midpoint overshoots the root
by half its final bracket width, so `Δγ ∈ [0, 0.1]` fails. -/
theorem C8_deltaGamma_counterexample :
    findIf (IsActive cexEnv) [protonP] = some (0, protonP)
    ∧ computeLossesRedshiftInterval cexEnv protonP
        < computeStochasticRedshiftInterval cexEnv protonP (cexEnv.rng 0)
    ∧ deltaGammaCritical
        < computeDeltaGamma cexEnv protonP (computeLossesRedshiftInterval cexEnv protonP) := by
  refine ⟨?_, ?_, ?_⟩
  · norm_num [findIf, IsActive, cexEnv, protonP, redshiftFloor, minPropagatingGamma]
  · have hds : computeStochasticRedshiftInterval cexEnv protonP (cexEnv.rng 0) = 1 := by
      have h2 : ((1:ℚ)/(1/2)/1 : ℚ) = 2 := by norm_num
      simp only [computeStochasticRedshiftInterval, cexEnv, h2]
      norm_num [abs_two]
    rw [cexEnv_lossesInterval, hds]
    norm_num
  · rw [cexEnv_lossesInterval, cexEnv_deltaGamma]
    norm_num [deltaGammaCritical]

/-- C8 amended: after a continuous-branch step with nonnegative loss
processes and a nonnegative Jacobian, `Δγ ≥ 0` and the new Lorentz factor
`Γ * (1 - Δγ)` does not exceed the old one; `Δγ ≤ criticalThreshold` is
guaranteed whenever the full-range estimate `computeDeltaGamma(p, z_now)`
is already within the threshold (the non-root-finding branch). -/
theorem C8_gamma_nonincrease (E : Env) (p : Particle)
    (hproc : ∀ f ∈ E.lossProcesses, ∀ (pid : ℤ) (G z : ℚ), 0 ≤ f pid G z)
    (hdt : 0 ≤ E.dtdz p.z) (hz : 0 < p.z) (hg : 0 ≤ p.gamma) :
    0 ≤ computeDeltaGamma E p (computeLossesRedshiftInterval E p)
    ∧ p.gamma * (1 - computeDeltaGamma E p (computeLossesRedshiftInterval E p)) ≤ p.gamma
    ∧ (computeDeltaGamma E p p.z ≤ deltaGammaCritical →
        computeDeltaGamma E p (computeLossesRedshiftInterval E p) ≤ deltaGammaCritical) := by
  have hR : ∀ z' : ℚ, 0 ≤ totalLossRate E p.pid p.gamma z' := fun z' =>
    totalLossRate_nonneg E hproc p.pid p.gamma z'
  have hdzc := lossesInterval_bounds E p hz
  have hnn : 0 ≤ computeDeltaGamma E p (computeLossesRedshiftInterval E p) := by
    rw [computeDeltaGamma_eq]
    apply mul_nonneg (mul_nonneg (by linarith [hdzc.1]) hdt)
    have h1 := hR p.z
    have h2 := hR (p.z - computeLossesRedshiftInterval E p / 2)
    have h3 := hR (p.z - computeLossesRedshiftInterval E p)
    linarith
  refine ⟨hnn, by nlinarith, fun hle => ?_⟩
  rw [lossesInterval_eq_of_le E p hle]
  exact hle

/-- Witness for the amended C8 at `zeroLossEnv`, `protonP`. -/
theorem C8_gamma_nonincrease_witness :
    0 ≤ computeDeltaGamma zeroLossEnv protonP (computeLossesRedshiftInterval zeroLossEnv protonP)
    ∧ protonP.gamma
        * (1 - computeDeltaGamma zeroLossEnv protonP
            (computeLossesRedshiftInterval zeroLossEnv protonP)) ≤ protonP.gamma
    ∧ (computeDeltaGamma zeroLossEnv protonP protonP.z ≤ deltaGammaCritical →
        computeDeltaGamma zeroLossEnv protonP (computeLossesRedshiftInterval zeroLossEnv protonP)
          ≤ deltaGammaCritical) :=
  C8_gamma_nonincrease zeroLossEnv protonP
    (by
      intro f hf pid G z
      simp only [zeroLossEnv, List.mem_cons, List.not_mem_nil, or_false] at hf
      rcases hf with rfl | rfl <;> norm_num)
    (by norm_num [zeroLossEnv]) (by norm_num [protonP]) (by norm_num [protonP])

/-- A positive redshift has at least one `Evolve` application left. -/
theorem stepsLeft_pos (z : ℚ) (hz : 0 < z) : 0 < core.stepsLeft z := by
  unfold core.stepsLeft
  have h : (0 : ℤ) < Int.ceil (100 * z) := Int.ceil_pos.mpr (by positivity)
  omega

/-- One `Evolve` application strictly decreases the remaining step count of
a particle with positive redshift. -/
theorem stepsLeft_decrease (z : ℚ) (hz : 0 < z) :
    core.stepsLeft (max (z - 1 / 100) 0) < core.stepsLeft z := by
  unfold core.stepsLeft
  have hpos : (0 : ℤ) < Int.ceil (100 * z) := Int.ceil_pos.mpr (by positivity)
  rcases le_or_lt z (1 / 100) with hle | hlt
  · rw [max_eq_right (by linarith)]
    simp only [mul_zero, Int.ceil_zero, Int.toNat_zero]
    omega
  · rw [max_eq_left (by linarith)]
    have harg : (100 : ℚ) * (z - 1 / 100) = 100 * z - 1 := by ring
    rw [harg, Int.ceil_sub_one]
    omega

/-- Writing through a valid index relates the mapped sums of the old and
new lists. -/
theorem sum_map_setAt {α : Type} (h : α → ℕ) :
    ∀ (l : List α) (i : ℕ) (p a : α), l.get? i = some p →
      ((setAt l i a).map h).sum + h p = (l.map h).sum + h a := by
  intro l
  induction l with
  | nil => intro i p a hp; simp at hp
  | cons x xs ih =>
    intro i p a hp
    cases i with
    | zero =>
      simp only [List.get?] at hp
      obtain rfl := Option.some_inj.mp hp
      simp only [setAt, List.map_cons, List.sum_cons]
      omega
    | succ n =>
      simp only [List.get?] at hp
      have := ih n p a hp
      simp only [setAt, List.map_cons, List.sum_cons]
      omega

/-- Any population whose termination measure is at most `k` reaches,
within the fuel budget, the iteration in which `find_if` fails and
`Evolve` is applied to the past-the-end iterator. -/
theorem run_reaches_oob (minE : ℚ) (adiab : ℚ → ℚ → ℚ) :
    ∀ (k : ℕ) (l : List core.Particle), core.runMeasure l ≤ k →
      ∃ n, core.run minE adiab n l = none := by
  intro k
  induction k with
  | zero =>
    intro l hl
    refine ⟨1, ?_⟩
    have hall : ∀ p ∈ l, core.DoPropagate minE p = false := by
      intro p hp
      have hzero : core.stepsLeft p.z = 0 := by
        have hsum : (l.map (fun q => core.stepsLeft q.z)).sum = 0 := Nat.le_zero.mp hl
        have := (List.sum_eq_zero_iff.mp hsum) (core.stepsLeft p.z)
          (List.mem_map_of_mem _ hp)
        exact this
      have hz : ¬ ((1 : ℚ) / 10 ^ 20 < p.z) := by
        intro hlt
        exact absurd hzero (Nat.pos_iff_ne_zero.mp
          (stepsLeft_pos p.z (lt_trans (by norm_num) hlt)))
      have hdz : decide ((1 : ℚ) / 10 ^ 20 < p.z) = false := decide_eq_false hz
      unfold core.DoPropagate
      rw [hdz, Bool.false_and]
    unfold core.run
    rw [findIf_none _ l hall]
  | succ k ih =>
    intro l hl
    cases hf : findIf (core.DoPropagate minE) l with
    | none => exact ⟨1, by unfold core.run; rw [hf]⟩
    | some q =>
      obtain ⟨i, p⟩ := q
      have hget := findIf_some _ l i p hf
      have hzp : 0 < p.z := by
        have hdo := hget.2
        unfold core.DoPropagate at hdo
        simp only [Bool.and_eq_true, decide_eq_true_eq] at hdo
        linarith [hdo.1]
      have hdec : core.runMeasure (setAt l i (core.Evolve adiab p)) < core.runMeasure l := by
        have hsum : ((setAt l i (core.Evolve adiab p)).map (fun q => core.stepsLeft q.z)).sum
              + core.stepsLeft p.z
            = (l.map (fun q => core.stepsLeft q.z)).sum
              + core.stepsLeft ((core.Evolve adiab p).z) :=
          sum_map_setAt (fun q => core.stepsLeft q.z) l i p (core.Evolve adiab p) hget.1
        have hstep : core.stepsLeft ((core.Evolve adiab p).z) < core.stepsLeft p.z :=
          stepsLeft_decrease p.z hzp
        unfold core.runMeasure
        omega
      obtain ⟨n, hn⟩ := ih (setAt l i (core.Evolve adiab p)) (by omega)
      refine ⟨n + 1, ?_⟩
      unfold core.run
      rw [hf]
      exact hn

/-- C10: for every non-empty initial population, the loop of
`SimProp::run` applies `Evolve` to the iterator returned by `std::find_if`
before re-testing the loop condition; since `Evolve` drives every
particle's redshift to 0, an iteration in which no particle satisfies
`DoPropagate` eventually occurs, and there `Evolve` dereferences the
past-the-end iterator — in this total embedding the run yields no value. -/
theorem C10_run_out_of_range (minE : ℚ) (adiab : ℚ → ℚ → ℚ)
    (l : List core.Particle) (hne : l ≠ []) :
    ∃ n, core.run minE adiab n l = none :=
  run_reaches_oob minE adiab (core.runMeasure l) l (le_refl _)

/-- Witness for C10: a single particle at redshift `1/100` with unit
energy, unit energy floor and trivial adiabatic factor. -/
theorem C10_run_out_of_range_witness :
    ([(⟨1, 1 / 100, 1⟩ : core.Particle)] ≠ ([] : List core.Particle))
    ∧ ∃ n, core.run 1 (fun _ _ => 1) n [(⟨1, 1 / 100, 1⟩ : core.Particle)] = none :=
  ⟨by simp,
    C10_run_out_of_range 1 (fun _ _ => 1) [(⟨1, 1 / 100, 1⟩ : core.Particle)] (by simp)⟩

end SimPropSirente
